import Mathlib

/-!
Shallow embedding of `src/make_datasets.py` (FINNGEN/endpoint_browser_dataset).

Conventions of the embedding:
* Python dicts keyed by strings are modelled as functions `String → Option _`;
  indexing a missing key (`KeyError`) and failed `assert` statements are
  modelled with `Except RunError _`.
* Float values in the source are used only in `== 1.0`, `== 0`, `>= 5` and
  `>= threshold` comparisons, so they are modelled as rationals `ℚ`; the
  special values `None` and `NaN` accepted by the `set_ncases` assertion get
  their own constructors in `StatValue`.
* CSV/JSON rows arrive as records of the fields the code reads.
-/

set_option autoImplicit false

/-- Errors that abort the run: a failed `assert` (carrying the endpoint it
complained about) or a Python `KeyError` on a dict lookup. -/
inductive RunError where
  | assertionError (endpoint : String)
  | keyError (key : String)
deriving DecidableEq, Repr

/-- A value of an `nindivs_*` field of the basic-stats JSON read by
`set_ncases`: JSON `null` (Python `None`), a float NaN, or a number. -/
inductive StatValue where
  | null
  | nan
  | num (q : ℚ)
deriving DecidableEq, Repr

/-- The per-value check of the `assert` in `set_ncases`
(src/make_datasets.py:171): `nn is None or isnan(nn) or nn == 0 or nn >= 5`. -/
def disclosureOk : StatValue → Bool
  | .null => true
  | .nan => true
  | .num q => q == 0 || 5 ≤ q

/-- A row of the endpoint-definitions CSV, with the fields `gather_info`
reads (src/make_datasets.py:133-138). -/
structure DefinitionRow where
  NAME : String
  LONGNAME : String
  CORE_ENDPOINTS : String
deriving DecidableEq, Repr

/-- A per-endpoint record of the registry built by `gather_info`.  The
`n_cases_*` fields start absent (`none`) and are filled in by `set_ncases`,
modelling the keys `dict.update` adds. -/
structure EndpointInfo where
  endpoint : String
  longname : String
  core_endpoint : String
  uk_meta_analysed : String
  est_meta_analysed : String
  n_cases_all : Option StatValue
  n_cases_female : Option StatValue
  n_cases_male : Option StatValue
deriving DecidableEq, Repr

/-- The record `gather_info` stores for a definition row
(src/make_datasets.py:135-143), with the placeholder meta-analysis flags. -/
def mkEndpointInfo (row : DefinitionRow) : EndpointInfo :=
  { endpoint := row.NAME
    longname := row.LONGNAME
    core_endpoint := row.CORE_ENDPOINTS
    uk_meta_analysed := "no"
    est_meta_analysed := "no"
    n_cases_all := none
    n_cases_female := none
    n_cases_male := none }

/-- The first loop of `gather_info` (src/make_datasets.py:129-143): insert one
record per row into the `endpoints` dict, keyed by the `NAME` field. -/
def gather_definitions (rows : List DefinitionRow) : String → Option EndpointInfo :=
  rows.foldl
    (fun endpoints row =>
      fun e => if e = row.NAME then some (mkEndpointInfo row) else endpoints e)
    (fun _ => none)

/-- The three case-count values `set_ncases` extracts for one endpoint
(src/make_datasets.py:163-167). -/
structure NCases where
  n_cases_all : StatValue
  n_cases_female : StatValue
  n_cases_male : StatValue
deriving DecidableEq, Repr

/-- The loop `for nn in n_cases.values(): assert ...` of `set_ncases`
(src/make_datasets.py:170-171), as a single boolean. -/
def checkNCases (nc : NCases) : Bool :=
  disclosureOk nc.n_cases_all && disclosureOk nc.n_cases_female
    && disclosureOk nc.n_cases_male

/-- The `endpoints[endpoint].update(n_cases)` step (src/make_datasets.py:173). -/
def updateNCases (info : EndpointInfo) (nc : NCases) : EndpointInfo :=
  { info with
    n_cases_all := some nc.n_cases_all
    n_cases_female := some nc.n_cases_female
    n_cases_male := some nc.n_cases_male }

/-- The `set_ncases` pass (src/make_datasets.py:158-173): for each item of
`stats["stats"]`, assert every count is disclosure-safe, then update the
registry entry (raising `KeyError` when the endpoint is not registered). -/
def set_ncases (endpoints : String → Option EndpointInfo) :
    List (String × NCases) → Except RunError (String → Option EndpointInfo)
  | [] => .ok endpoints
  | (e, nc) :: rest =>
    if checkNCases nc then
      match endpoints e with
      | some info =>
        set_ncases (fun x => if x = e then some (updateNCases info nc) else endpoints x) rest
      | none => .error (.keyError e)
    else
      .error (.assertionError e)

/-- The two field names `set_meta_analysis` is called with
(src/make_datasets.py:147-148). -/
inductive MetaField where
  | uk
  | est
deriving DecidableEq, Repr

/-- The `endpoints[endpoint][name_meta] = "yes"` write
(src/make_datasets.py:182), given the entry exists. -/
def setMetaField (info : EndpointInfo) : MetaField → EndpointInfo
  | .uk => { info with uk_meta_analysed := "yes" }
  | .est => { info with est_meta_analysed := "yes" }

/-- The `set_meta_analysis` pass (src/make_datasets.py:176-182): for each
`phenocode` of the meta-results file, set the participation flag of the
registry entry; indexing `endpoints[endpoint]` raises `KeyError` when the
code has no registry entry. -/
def set_meta_analysis (endpoints : String → Option EndpointInfo)
    (name_meta : MetaField) :
    List String → Except RunError (String → Option EndpointInfo)
  | [] => .ok endpoints
  | e :: rest =>
    match endpoints e with
    | some info =>
        set_meta_analysis
          (fun x => if x = e then some (setMetaField info name_meta) else endpoints x)
          name_meta rest
    | none => .error (.keyError e)

/-- A row of the endpoint-endpoint correlations CSV, with the fields
`build_tree` reads (src/make_datasets.py:213-219). -/
structure CorrRow where
  endpoint_a : String
  endpoint_b : String
  ratio_shared_of_b : ℚ
  jaccard_index : ℚ
deriving DecidableEq, Repr

/-- A record appended to `tree` by `build_tree`
(src/make_datasets.py:223-237). -/
structure TreeEdge where
  parent : String
  child : String
  subsets : Bool
  case_overlap : ℚ
deriving DecidableEq, Repr

/-- The body of the `build_tree` loop for one row (src/make_datasets.py:212-237):
skip self rows, classify full subsets (`ratio_shared_of_b == 1.0`) first,
else threshold-gate on `jaccard_index >= threshold`. -/
def treeStep (threshold : ℚ) (tree : List TreeEdge) (row : CorrRow) : List TreeEdge :=
  if row.endpoint_a = row.endpoint_b then tree
  else if row.ratio_shared_of_b = 1 then
    tree ++ [{ parent := row.endpoint_a, child := row.endpoint_b,
               subsets := true, case_overlap := row.jaccard_index }]
  else if threshold ≤ row.jaccard_index then
    tree ++ [{ parent := row.endpoint_a, child := row.endpoint_b,
               subsets := false, case_overlap := row.jaccard_index }]
  else tree

/-- The `build_tree` function (src/make_datasets.py:206-239): fold the loop
body over the correlation rows, starting from the empty list. -/
def build_tree (rows : List CorrRow) (threshold : ℚ) : List TreeEdge :=
  rows.foldl (treeStep threshold) []

/-- The edge (if any) a single row contributes, used to state what
`build_tree` appends. -/
def edgeOfRow (threshold : ℚ) (row : CorrRow) : Option TreeEdge :=
  if row.endpoint_a = row.endpoint_b then none
  else if row.ratio_shared_of_b = 1 then
    some { parent := row.endpoint_a, child := row.endpoint_b,
           subsets := true, case_overlap := row.jaccard_index }
  else if threshold ≤ row.jaccard_index then
    some { parent := row.endpoint_a, child := row.endpoint_b,
           subsets := false, case_overlap := row.jaccard_index }
  else none

theorem treeStep_eq (threshold : ℚ) (tree : List TreeEdge) (row : CorrRow) :
    treeStep threshold tree row = tree ++ (edgeOfRow threshold row).toList := by
  unfold treeStep edgeOfRow
  split
  · simp
  · split
    · simp
    · split <;> simp

theorem build_tree_foldl (threshold : ℚ) (rows : List CorrRow)
    (acc : List TreeEdge) :
    rows.foldl (treeStep threshold) acc = acc ++ rows.filterMap (edgeOfRow threshold) := by
  induction rows generalizing acc with
  | nil => simp
  | cons row rest ih =>
    rw [List.foldl_cons, ih, treeStep_eq, List.filterMap_cons]
    cases edgeOfRow threshold row <;> simp

theorem build_tree_eq_filterMap (rows : List CorrRow) (threshold : ℚ) :
    build_tree rows threshold = rows.filterMap (edgeOfRow threshold) := by
  unfold build_tree
  rw [build_tree_foldl]
  simp

theorem build_tree_append (rows₁ rows₂ : List CorrRow) (threshold : ℚ) :
    build_tree (rows₁ ++ rows₂) threshold
      = build_tree rows₁ threshold ++ build_tree rows₂ threshold := by
  simp [build_tree_eq_filterMap]

theorem build_tree_cons (row : CorrRow) (rest : List CorrRow) (threshold : ℚ) :
    build_tree (row :: rest) threshold
      = (edgeOfRow threshold row).toList ++ build_tree rest threshold := by
  rw [build_tree_eq_filterMap, build_tree_eq_filterMap, List.filterMap_cons]
  cases edgeOfRow threshold row <;> simp

/-- Value of the `Frequency_people` field read by `find_code_cases`: either
the string sentinel `"<5"` or a value `int(ncases)` parses to. -/
inductive CountValue where
  | lt5
  | num (n : ℤ)
deriving DecidableEq, Repr

/-- The `assert` of `find_code_cases` (src/make_datasets.py:263):
`ncases == "<5" or int(ncases) == 0 or int(ncases) >= 5`. -/
def codeCasesOk : CountValue → Bool
  | .lt5 => true
  | .num n => n == 0 || 5 ≤ n

/-- The inner loop of `find_code_cases` (src/make_datasets.py:258-266) over
the records of one name-table: assert each count, then store it unchanged in
the `code_cases` dict under its `Tag`. -/
def scanCodeCases (code_cases : String → Option CountValue) :
    List (String × CountValue) → Except RunError (String → Option CountValue)
  | [] => .ok code_cases
  | (code, ncases) :: rest =>
    if codeCasesOk ncases then
      scanCodeCases (fun c => if c = code then some ncases else code_cases c) rest
    else .error (.assertionError code)

/-- The per-table part of `find_code_cases` (src/make_datasets.py:258-266),
starting from an empty `code_cases` dict. -/
def find_code_cases (records : List (String × CountValue)) :
    Except RunError (String → Option CountValue) :=
  scanCodeCases (fun _ => none) records

/-- Modelled from the spec (§4.5): the optional eligibility restriction of
the Overlap Hierarchy Builder — "If an eligibility set is supplied, rows
where either A or B is not in that set are skipped."  This restriction is
part of other script generations of the repository that are not under
`src/`; `build_tree` in `src/make_datasets.py` has no eligibility
parameter.  With no eligibility set the step is exactly `treeStep`. -/
def eligStep (eligible : Option (List String)) (threshold : ℚ)
    (tree : List TreeEdge) (row : CorrRow) : List TreeEdge :=
  match eligible with
  | some s =>
    if row.endpoint_a ∉ s ∨ row.endpoint_b ∉ s then tree
    else treeStep threshold tree row
  | none => treeStep threshold tree row

/-- Modelled from the spec (§4.5): the Overlap Hierarchy Builder with an
optional eligibility set, folding `eligStep` over the rows in input order. -/
def build_tree_eligible (eligible : Option (List String))
    (rows : List CorrRow) (threshold : ℚ) : List TreeEdge :=
  rows.foldl (eligStep eligible threshold) []

/-- The edge (if any) a single row contributes under an optional eligibility
set, used to state what `build_tree_eligible` appends. -/
def eligEdgeOfRow (eligible : Option (List String)) (threshold : ℚ)
    (row : CorrRow) : Option TreeEdge :=
  match eligible with
  | some s =>
    if row.endpoint_a ∉ s ∨ row.endpoint_b ∉ s then none
    else edgeOfRow threshold row
  | none => edgeOfRow threshold row

theorem eligStep_eq (eligible : Option (List String)) (threshold : ℚ)
    (tree : List TreeEdge) (row : CorrRow) :
    eligStep eligible threshold tree row
      = tree ++ (eligEdgeOfRow eligible threshold row).toList := by
  cases eligible with
  | none => exact treeStep_eq threshold tree row
  | some s =>
    show (if row.endpoint_a ∉ s ∨ row.endpoint_b ∉ s then tree
        else treeStep threshold tree row)
      = tree ++ (if row.endpoint_a ∉ s ∨ row.endpoint_b ∉ s then none
          else edgeOfRow threshold row).toList
    by_cases h : row.endpoint_a ∉ s ∨ row.endpoint_b ∉ s
    · rw [if_pos h, if_pos h]
      simp
    · rw [if_neg h, if_neg h]
      exact treeStep_eq threshold tree row

theorem build_tree_eligible_foldl (eligible : Option (List String))
    (threshold : ℚ) (rows : List CorrRow) (acc : List TreeEdge) :
    rows.foldl (eligStep eligible threshold) acc
      = acc ++ rows.filterMap (eligEdgeOfRow eligible threshold) := by
  induction rows generalizing acc with
  | nil => simp
  | cons row rest ih =>
    rw [List.foldl_cons, ih, eligStep_eq, List.filterMap_cons]
    cases eligEdgeOfRow eligible threshold row <;> simp

theorem build_tree_eligible_eq_filterMap (eligible : Option (List String))
    (rows : List CorrRow) (threshold : ℚ) :
    build_tree_eligible eligible rows threshold
      = rows.filterMap (eligEdgeOfRow eligible threshold) := by
  unfold build_tree_eligible
  rw [build_tree_eligible_foldl]
  simp

/-- Modelled from the spec (§4.4): an endpoint-definition row as consumed by
the Inclusion Hierarchy Builder, which is part of other script generations
of the repository not under `src/`: a code and its (already split,
possibly empty) list of included codes. -/
structure InclusionRow where
  code : String
  includes : List String
deriving DecidableEq, Repr

/-- Parent and child index of the Inclusion Hierarchy, total with default
`∅` so that codes seen only as inclusion targets have an (empty) entry. -/
structure InclusionHierarchy where
  parents : String → Finset String
  children : String → Finset String

/-- Modelled from the spec (§4.4): processing one definition row — "for each
row, union its declared inclusions into that code's existing children set;
for each included code, union the current row's code into that included
code's parents set." -/
def inclusionStep (h : InclusionHierarchy) (row : InclusionRow) : InclusionHierarchy :=
  { children := fun c =>
      if c = row.code then h.children c ∪ row.includes.toFinset else h.children c
    parents := fun c =>
      if c ∈ row.includes then insert row.code (h.parents c) else h.parents c }

/-- Modelled from the spec (§4.4): the Inclusion Hierarchy Builder — fold the
row step over the definition rows, starting from the empty index. -/
def build_inclusion_hierarchy (rows : List InclusionRow) : InclusionHierarchy :=
  rows.foldl inclusionStep { parents := fun _ => ∅, children := fun _ => ∅ }

/-- Description of the claim that registration keeps the last row per code:
the last definition row carrying a given code, if any. -/
def lastDefinitionOf : List DefinitionRow → String → Option DefinitionRow
  | [], _ => none
  | row :: rest, c =>
    match lastDefinitionOf rest c with
    | some r => some r
    | none => if row.NAME = c then some row else none

theorem gather_definitions_foldl (rows : List DefinitionRow)
    (m : String → Option EndpointInfo) (c : String) :
    rows.foldl
        (fun endpoints row =>
          fun e => if e = row.NAME then some (mkEndpointInfo row) else endpoints e)
        m c
      = match lastDefinitionOf rows c with
        | some r => some (mkEndpointInfo r)
        | none => m c := by
  induction rows generalizing m with
  | nil => rfl
  | cons row rest ih =>
    rw [List.foldl_cons, ih]
    cases h : lastDefinitionOf rest c with
    | some r => simp [lastDefinitionOf, h]
    | none =>
      by_cases hc : c = row.NAME
      · subst hc
        simp [lastDefinitionOf, h]
      · have hc' : ¬ row.NAME = c := fun hh => hc hh.symm
        simp [lastDefinitionOf, h, hc, hc']

theorem lastDefinitionOf_isSome (rows : List DefinitionRow) (c : String) :
    (lastDefinitionOf rows c).isSome = true ↔ c ∈ rows.map DefinitionRow.NAME := by
  induction rows with
  | nil => simp [lastDefinitionOf]
  | cons row rest ih =>
    unfold lastDefinitionOf
    cases h : lastDefinitionOf rest c with
    | some r =>
      simp only [Option.isSome_some, List.map_cons, List.mem_cons, true_iff]
      right
      exact ih.mp (by rw [h]; rfl)
    | none =>
      have hrest : ¬ c ∈ rest.map DefinitionRow.NAME := fun hm => by
        have := ih.mpr hm
        rw [h] at this
        exact absurd this (by simp)
      by_cases hc : row.NAME = c
      · simp [hc]
      · have hc' : ¬ c = row.NAME := fun h => hc h.symm
        simp [hc, hc', hrest]

theorem inclusionStep_inv (h : InclusionHierarchy) (row : InclusionRow)
    (inv : ∀ A B : String, B ∈ h.children A ↔ A ∈ h.parents B) (A B : String) :
    B ∈ (inclusionStep h row).children A ↔ A ∈ (inclusionStep h row).parents B := by
  unfold inclusionStep
  by_cases hA : A = row.code <;> by_cases hB : B ∈ row.includes
  · simp [hA, hB]
  · simp [hA, hB, inv row.code B]
  · simp [hA, hB, inv A B]
  · simp [hA, hB, inv A B]

theorem inclusion_foldl_inv (rows : List InclusionRow) (h : InclusionHierarchy)
    (inv : ∀ A B : String, B ∈ h.children A ↔ A ∈ h.parents B) (A B : String) :
    B ∈ (rows.foldl inclusionStep h).children A
      ↔ A ∈ (rows.foldl inclusionStep h).parents B := by
  induction rows generalizing h with
  | nil => exact inv A B
  | cons row rest ih =>
    rw [List.foldl_cons]
    exact ih (inclusionStep h row) (inclusionStep_inv h row inv)

theorem scanCodeCases_mem (records : List (String × CountValue))
    (acc m : String → Option CountValue)
    (h : scanCodeCases acc records = .ok m) (c : String) (v : CountValue)
    (hm : m c = some v) : (c, v) ∈ records ∨ acc c = some v := by
  induction records generalizing acc with
  | nil =>
    right
    unfold scanCodeCases at h
    cases h
    exact hm
  | cons rec rest ih =>
    obtain ⟨code, ncases⟩ := rec
    unfold scanCodeCases at h
    by_cases hok : codeCasesOk ncases = true
    · rw [if_pos hok] at h
      rcases ih _ h with hmem | hacc
      · exact Or.inl (List.mem_cons_of_mem _ hmem)
      · by_cases hc : c = code
        · left
          rw [if_pos hc] at hacc
          cases hacc
          rw [hc]
          exact List.mem_cons_self _ _
        · right
          rw [if_neg hc] at hacc
          exact hacc
    · rw [if_neg hok] at h
      cases h

/-- C1: For every case-count value checked by the `set_ncases` pass, the
disclosure check succeeds if and only if the value is missing (`None`),
not-a-number, exactly 0, or at least 5; in particular it fails for every
count in {1, 2, 3, 4}, and a failed check aborts the pass with an assertion
error. -/
theorem c1_disclosure_guard :
    (∀ v : StatValue, disclosureOk v = true ↔
        (v = .null ∨ v = .nan ∨ v = .num 0 ∨ ∃ q : ℚ, v = .num q ∧ 5 ≤ q))
    ∧ disclosureOk (.num 1) = false ∧ disclosureOk (.num 2) = false
    ∧ disclosureOk (.num 3) = false ∧ disclosureOk (.num 4) = false
    ∧ ∀ (endpoints : String → Option EndpointInfo)
        (rest : List (String × NCases)) (e : String) (nc : NCases),
        checkNCases nc = false →
        set_ncases endpoints ((e, nc) :: rest) = .error (.assertionError e) := by
  refine ⟨?_, by decide, by decide, by decide, by decide, ?_⟩
  · intro v
    cases v with
    | null => simp [disclosureOk]
    | nan => simp [disclosureOk]
    | num q =>
      simp only [disclosureOk, Bool.or_eq_true, beq_iff_eq, decide_eq_true_eq]
      constructor
      · rintro (h0 | h5)
        · exact Or.inr (Or.inr (Or.inl (by rw [h0])))
        · exact Or.inr (Or.inr (Or.inr ⟨q, rfl, h5⟩))
      · rintro (h | h | h | ⟨q', hq', h5⟩)
        · exact absurd h (by simp)
        · exact absurd h (by simp)
        · exact Or.inl (by injection h)
        · injection hq' with hq'
          exact Or.inr (hq' ▸ h5)
  · intro endpoints rest e nc h
    unfold set_ncases
    rw [if_neg (by rw [h]; exact Bool.false_ne_true)]

/-- Witness for C1 at the concrete count 3: the check reports failure and the
pass aborts with an assertion error. -/
theorem c1_disclosure_guard_witness :
    checkNCases ⟨.num 3, .null, .null⟩ = false
    ∧ set_ncases (fun _ => none) [("E1", ⟨.num 3, .null, .null⟩)]
        = .error (.assertionError "E1") :=
  ⟨by decide, c1_disclosure_guard.2.2.2.2.2 (fun _ => none) [] "E1" _ (by decide)⟩

/-- C2: a correlation row with distinct endpoints whose `ratio_shared_of_b`
equals 1.0 always contributes an edge with `subsets = true` (parent the A
endpoint, child the B endpoint), at its position in the input, whatever the
`jaccard_index` and the threshold are. -/
theorem c2_full_subset_precedence (threshold : ℚ) (pre post : List CorrRow)
    (row : CorrRow) (hne : row.endpoint_a ≠ row.endpoint_b)
    (hratio : row.ratio_shared_of_b = 1) :
    build_tree (pre ++ row :: post) threshold
      = build_tree pre threshold
        ++ ({ parent := row.endpoint_a, child := row.endpoint_b,
              subsets := true, case_overlap := row.jaccard_index } : TreeEdge)
          :: build_tree post threshold := by
  rw [build_tree_append, build_tree_cons]
  simp [edgeOfRow, hne, hratio]

/-- Witness for C2 at a concrete row with ratio 1 and a metric (0) below the
threshold (5): the edge is still emitted, with `subsets = true`. -/
theorem c2_full_subset_precedence_witness :
    build_tree
        ([] ++ ({ endpoint_a := "E1", endpoint_b := "E2", ratio_shared_of_b := 1, jaccard_index := 0 } : CorrRow) :: []) 5
      = build_tree [] 5
        ++ ({ parent := "E1", child := "E2", subsets := true, case_overlap := 0 } : TreeEdge) :: build_tree [] 5 :=
  c2_full_subset_precedence 5 [] []
    { endpoint_a := "E1", endpoint_b := "E2", ratio_shared_of_b := 1, jaccard_index := 0 }
    (by decide) (by decide)

/-- C3: a correlation row with distinct endpoints whose `ratio_shared_of_b`
is not 1.0 contributes an edge (with `subsets = false`) exactly when its
`jaccard_index` is at least the threshold (inclusive comparison); otherwise
it contributes nothing, and no error is raised. -/
theorem c3_threshold_gate (threshold : ℚ) (pre post : List CorrRow)
    (row : CorrRow) (hne : row.endpoint_a ≠ row.endpoint_b)
    (hratio : row.ratio_shared_of_b ≠ 1) :
    build_tree (pre ++ row :: post) threshold
      = build_tree pre threshold
        ++ (if threshold ≤ row.jaccard_index then
              [({ parent := row.endpoint_a, child := row.endpoint_b,
                  subsets := false, case_overlap := row.jaccard_index } : TreeEdge)]
            else [])
          ++ build_tree post threshold := by
  rw [build_tree_append, build_tree_cons]
  by_cases hj : threshold ≤ row.jaccard_index
  · simp [edgeOfRow, hne, hratio, hj]
  · simp [edgeOfRow, hne, hratio, hj]

/-- Witness for C3 at a concrete row with ratio 0 and metric 7 against
threshold 5: the edge is emitted with `subsets = false`. -/
theorem c3_threshold_gate_witness :
    build_tree
        ([] ++ ({ endpoint_a := "E1", endpoint_b := "E2", ratio_shared_of_b := 0, jaccard_index := 7 } : CorrRow) :: []) 5
      = build_tree [] 5
        ++ (if (5:ℚ) ≤ 7 then
              [({ parent := "E1", child := "E2", subsets := false, case_overlap := 7 } : TreeEdge)]
            else [])
          ++ build_tree [] 5 :=
  c3_threshold_gate 5 [] []
    { endpoint_a := "E1", endpoint_b := "E2", ratio_shared_of_b := 0, jaccard_index := 7 }
    (by decide) (by decide)

/-- C4: no edge produced by `build_tree` has its parent equal to its child,
for any input rows and any threshold. -/
theorem c4_no_self_edges (rows : List CorrRow) (threshold : ℚ) (e : TreeEdge)
    (he : e ∈ build_tree rows threshold) : e.parent ≠ e.child := by
  rw [build_tree_eq_filterMap] at he
  rcases List.mem_filterMap.mp he with ⟨row, _, hrow⟩
  unfold edgeOfRow at hrow
  split_ifs at hrow with h1 h2 h3
  · obtain rfl := Option.some.inj hrow
    exact h1
  · obtain rfl := Option.some.inj hrow
    exact h1

/-- Witness for C4 at a concrete input producing one edge. -/
theorem c4_no_self_edges_witness :
    ({ parent := "E1", child := "E2", subsets := true, case_overlap := 0 } : TreeEdge).parent
      ≠ ({ parent := "E1", child := "E2", subsets := true, case_overlap := 0 } : TreeEdge).child :=
  c4_no_self_edges
    [{ endpoint_a := "E1", endpoint_b := "E2", ratio_shared_of_b := 1, jaccard_index := 0 }] 5 _
    (by simp [build_tree, treeStep])

/-- C5: when an eligibility set is supplied, a row with either endpoint
outside the set is skipped wherever it occurs in the input — the output is
the same as if the row were absent — whatever its ratio and metric. -/
theorem c5_eligibility_skip (s : List String) (threshold : ℚ)
    (pre post : List CorrRow) (row : CorrRow)
    (h : row.endpoint_a ∉ s ∨ row.endpoint_b ∉ s) :
    build_tree_eligible (some s) (pre ++ row :: post) threshold
      = build_tree_eligible (some s) (pre ++ post) threshold := by
  rw [build_tree_eligible_eq_filterMap, build_tree_eligible_eq_filterMap,
    List.filterMap_append, List.filterMap_append, List.filterMap_cons]
  have hrow : eligEdgeOfRow (some s) threshold row = none := by
    unfold eligEdgeOfRow
    exact if_pos h
  rw [hrow]

/-- Witness for C5 at the spec's example: eligible = {E1, E2} and a row with
B = E3, placed after an eligible row, contributes nothing even with ratio 1. -/
theorem c5_eligibility_skip_witness :
    build_tree_eligible (some ["E1", "E2"])
        ([({ endpoint_a := "E1", endpoint_b := "E2", ratio_shared_of_b := 1, jaccard_index := 1 } : CorrRow)]
          ++ ({ endpoint_a := "E1", endpoint_b := "E3", ratio_shared_of_b := 1, jaccard_index := 1 } : CorrRow) :: []) 1
      = build_tree_eligible (some ["E1", "E2"])
          ([({ endpoint_a := "E1", endpoint_b := "E2", ratio_shared_of_b := 1, jaccard_index := 1 } : CorrRow)] ++ []) 1 :=
  c5_eligibility_skip ["E1", "E2"] 1
    [{ endpoint_a := "E1", endpoint_b := "E2", ratio_shared_of_b := 1, jaccard_index := 1 }] []
    { endpoint_a := "E1", endpoint_b := "E3", ratio_shared_of_b := 1, jaccard_index := 1 }
    (Or.inr (by decide))

/-- C6: `build_tree` is a deterministic, order-preserving map of the input
row sequence: the output is exactly the row-by-row contributions in input
order, and splitting the input anywhere splits the output accordingly, so
the edge of an earlier row always precedes the edge of a later row. -/
theorem c6_order_preserving :
    (∀ (threshold : ℚ) (rows : List CorrRow),
        build_tree rows threshold = rows.filterMap (edgeOfRow threshold))
    ∧ ∀ (threshold : ℚ) (rows₁ rows₂ : List CorrRow),
        build_tree (rows₁ ++ rows₂) threshold
          = build_tree rows₁ threshold ++ build_tree rows₂ threshold :=
  ⟨fun threshold rows => build_tree_eq_filterMap rows threshold,
   fun threshold rows₁ rows₂ => build_tree_append rows₁ rows₂ threshold⟩

/-- C7: the per-code case-tally check accepts a count exactly when it is the
sentinel `"<5"` or an integer equal to 0 or at least 5; the counts 1-4 are
rejected and abort the scan with an assertion error; every value an accepted
table stores is one of the input values, unchanged (in particular the
sentinel is stored as the sentinel, never decoded). -/
theorem c7_code_cases_check :
    (∀ v : CountValue, codeCasesOk v = true ↔
        (v = .lt5 ∨ ∃ n : ℤ, v = .num n ∧ (n = 0 ∨ 5 ≤ n)))
    ∧ codeCasesOk (.num 1) = false ∧ codeCasesOk (.num 2) = false
    ∧ codeCasesOk (.num 3) = false ∧ codeCasesOk (.num 4) = false
    ∧ (∀ (records : List (String × CountValue)) (m : String → Option CountValue)
        (c : String) (v : CountValue),
        find_code_cases records = .ok m → m c = some v → (c, v) ∈ records)
    ∧ ∀ (code : String) (v : CountValue) (rest : List (String × CountValue)),
        codeCasesOk v = false →
        find_code_cases ((code, v) :: rest) = .error (.assertionError code) := by
  refine ⟨?_, by decide, by decide, by decide, by decide, ?_, ?_⟩
  · intro v
    cases v with
    | lt5 => simp [codeCasesOk]
    | num n =>
      simp only [codeCasesOk, Bool.or_eq_true, beq_iff_eq, decide_eq_true_eq]
      constructor
      · rintro (h0 | h5)
        · exact Or.inr ⟨n, rfl, Or.inl h0⟩
        · exact Or.inr ⟨n, rfl, Or.inr h5⟩
      · rintro (h | ⟨n', hn', hn⟩)
        · exact absurd h (by simp)
        · injection hn' with hn'
          exact hn' ▸ hn
  · intro records m c v hok hm
    have h := scanCodeCases_mem records (fun _ => none) m hok c v hm
    rcases h with h | h
    · exact h
    · exact absurd h (by simp)
  · intro code v rest h
    unfold find_code_cases scanCodeCases
    rw [if_neg (by rw [h]; exact Bool.false_ne_true)]

/-- Witness for C7 at a concrete table of one record carrying the sentinel:
the scan succeeds and stores the sentinel unchanged. -/
theorem c7_code_cases_check_witness :
    ("I9", CountValue.lt5) ∈ [("I9", CountValue.lt5)] :=
  c7_code_cases_check.2.2.2.2.2.1
    [("I9", CountValue.lt5)]
    (fun c => if c = "I9" then some CountValue.lt5 else none)
    "I9" CountValue.lt5 rfl (by simp)

/-- C8 counterexample: a meta-analysis source code with no registry entry
does not complete silently — the pass aborts with a `KeyError` on that
code. -/
theorem c8_counterexample_key_error :
    set_meta_analysis (fun _ => none) MetaField.uk ["E1"]
      = .error (.keyError "E1") := rfl

/-- C8 as amended: for every endpoint code appearing in a meta-analysis
cohort source but absent from the Endpoint Registry, `set_meta_analysis`
fails with a lookup (`KeyError`) error when it reaches that code, like the
case-count pass does; it does not silently ignore it. -/
theorem c8_meta_missing_is_key_error (endpoints : String → Option EndpointInfo)
    (name_meta : MetaField) (e : String) (rest : List String)
    (h : endpoints e = none) :
    set_meta_analysis endpoints name_meta (e :: rest) = .error (.keyError e) := by
  unfold set_meta_analysis
  rw [h]

/-- Witness for the amended C8 at a different concrete source. -/
theorem c8_meta_missing_is_key_error_witness :
    set_meta_analysis (fun _ => none) MetaField.est ["E2", "E3"]
      = .error (.keyError "E2") :=
  c8_meta_missing_is_key_error (fun _ => none) MetaField.est "E2" ["E3"] rfl

/-- C9: in the Inclusion Hierarchy built from any sequence of definition
rows (hence regardless of processing order), a code B is in A's children set
if and only if A is in B's parents set. -/
theorem c9_inclusion_invertibility (rows : List InclusionRow) (A B : String) :
    B ∈ (build_inclusion_hierarchy rows).children A
      ↔ A ∈ (build_inclusion_hierarchy rows).parents B :=
  inclusion_foldl_inv rows { parents := fun _ => ∅, children := fun _ => ∅ }
    (fun _ _ => by simp) A B

/-- C10: the registry loop of `gather_info` keeps, for each code, exactly
the record of the last definition row carrying that code (silently
overwriting earlier duplicates, raising no error), and its key set is
exactly the set of codes of the definition rows. -/
theorem c10_registry_last_wins (rows : List DefinitionRow) (c : String) :
    gather_definitions rows c = (lastDefinitionOf rows c).map mkEndpointInfo
    ∧ ((gather_definitions rows c).isSome = true ↔ c ∈ rows.map DefinitionRow.NAME) := by
  have hmain : gather_definitions rows c
      = (lastDefinitionOf rows c).map mkEndpointInfo := by
    unfold gather_definitions
    rw [gather_definitions_foldl]
    cases lastDefinitionOf rows c <;> rfl
  refine ⟨hmain, ?_⟩
  rw [hmain, ← lastDefinitionOf_isSome rows c]
  cases lastDefinitionOf rows c <;> simp
